import Mathlib

/-!
A shallow embedding of the unit-algebra core of the PObjects package
(source files SI.py and PObject.py).  Python floats are modelled as exact
rationals, Python strings as lists of characters, and raised exceptions as
the error case of Except.  Decimal numeric literals produced and consumed
by the formatting routines are modelled by the rational value they denote.
-/

deriving instance DecidableEq for Except

/-- Unit strings are modelled as lists of characters. -/
abbrev UStr := List Char

/-- Python str.split(" "): split at every single space, keeping empty pieces. -/
def splitOnSpace : UStr → List UStr
  | [] => [[]]
  | c :: rest =>
    let r := splitOnSpace rest
    if c = ' ' then [] :: r
    else
      match r with
      | [] => [[c]]
      | h :: t => (c :: h) :: t

/-- Python str.strip(): drop whitespace from both ends. -/
def stripWS (l : UStr) : UStr :=
  ((l.dropWhile Char.isWhitespace).reverse.dropWhile Char.isWhitespace).reverse

/-- Python int(s) on the exponent text of a unit token, restricted to the
nonnegative decimal digit strings of the documented grammar; any other text
is a parse failure. -/
def parseNat (l : UStr) : Option ℕ :=
  if l = [] then none
  else l.foldlM (fun acc c => if c.isDigit then some (acc * 10 + (c.toNat - 48)) else none) 0

/-- Python token.find on the two-star power marker: split a token at the
first occurrence, returning the parts before and after it. -/
def splitPow : UStr → Option (UStr × UStr)
  | [] => none
  | '*' :: '*' :: rest => some ([], rest)
  | c :: rest => (splitPow rest).map (fun p => (c :: p.1, p.2))

/-- Fuel-driven floor of the base-10 logarithm of a natural number. -/
def logAux : ℕ → ℕ → ℕ
  | 0, _ => 0
  | fuel + 1, n => if n < 10 then 0 else logAux fuel (n / 10) + 1

/-- Floor of log10 on naturals (0 for inputs below 10). -/
def natLog10 (n : ℕ) : ℕ := logAux n n

/-- Ceiling of log10 on naturals. -/
def ceilLog10 (n : ℕ) : ℕ := if n ≤ 1 then 0 else natLog10 (n - 1) + 1

/-- math.floor of math.log10 of a positive rational, computed exactly. -/
def floorLog10 (x : ℚ) : ℤ :=
  if 1 ≤ x then (natLog10 ⌊x⌋.toNat : ℤ) else -(ceilLog10 ⌈x⁻¹⌉.toNat : ℤ)

/-- Python round() on an exact rational: nearest integer, ties to even. -/
def pyRound (x : ℚ) : ℤ :=
  let f := ⌊x⌋
  let r := x - f
  if r < 1/2 then f else if 1/2 < r then f + 1 else if f % 2 = 0 then f else f + 1

/-- Fixed-point rendering with k digits after the decimal point (Python
format .kf), modelled as the rational value of the printed literal. -/
def roundDec (k : ℤ) (x : ℚ) : ℚ := (pyRound (x * 10 ^ k) : ℚ) / 10 ^ k

/-- Rendering with n significant digits (Python format .ng), modelled as the
rational value of the printed literal. -/
def roundSig (n : ℕ) (x : ℚ) : ℚ :=
  if x = 0 then 0
  else
    let e : ℤ := floorLog10 |x| - max 1 (n : ℤ) + 1
    (pyRound (x / 10 ^ e) : ℚ) * 10 ^ e

namespace SI

/-- SI.Unit: a compound SI unit as the stored numerator/denominator pair of
a rational number over the base-dimension primes, exactly the two integer
attributes of the Python class. -/
structure Unit where
  numerator : ℕ
  denominator : ℕ
deriving DecidableEq

/-- The table Unit.__namesDict mapping unit names to stored pairs, in source
order. -/
def namesList : List (UStr × ℕ × ℕ) :=
  [("".toList, 1, 1), ("m".toList, 2, 1), ("kg".toList, 3, 1), ("s".toList, 5, 1),
   ("A".toList, 7, 1), ("K".toList, 11, 1), ("mol".toList, 13, 1), ("cd".toList, 17, 1),
   ("Hz".toList, 1, 5), ("N".toList, 6, 25), ("Pa".toList, 3, 50), ("J".toList, 12, 25),
   ("W".toList, 12, 125), ("C".toList, 35, 1), ("V".toList, 12, 875), ("F".toList, 30625, 12),
   ("Ω".toList, 12, 6125), ("S".toList, 6125, 12), ("Wb".toList, 12, 175), ("T".toList, 3, 175),
   ("H".toList, 12, 1225), ("lx".toList, 17, 4)]

/-- The tuple branch of the Unit constructor: divide both components by
their gcd.  Python's math.gcd(0, 0) is 0, so the divisions then raise
ZeroDivisionError. -/
def Unit.ofTuple (num den : ℕ) : Except String Unit :=
  let g := Nat.gcd num den
  if g = 0 then .error ("ZeroDivisionError: integer division or modulo by zero")
  else .ok ⟨num / g, den / g⟩

/-- The string branch of the Unit constructor: tokenize on spaces, accept at
most one slash, discard parentheses, multiply the table entry of each token
into the numerator/denominator accumulators.  The accumulated products are
stored without any gcd reduction. -/
def Unit.parse (unitIn : UStr) : Except String Unit :=
  let unit := if unitIn = "Ohm".toList then "Ω".toList else unitIn
  if 1 < unit.count '/' then
    .error ("Can only use one / - use parentheses for numerator and denominator")
  else
    let unit := unit.filter (fun c => !(c == '(' || c == ')'))
    let step : ℕ × ℕ × Bool → UStr → Except String (ℕ × ℕ × Bool) :=
      fun st token =>
        if token = "1".toList then .ok st
        else if token = "/".toList then .ok (st.1, st.2.1, false)
        else
          let tp : UStr × Option ℕ :=
            match splitPow token with
            | none => (token, some 1)
            | some pr => (pr.1, parseNat pr.2)
          match tp.2 with
          | none => .error ("invalid literal for int() in unit power")
          | some p =>
            match namesList.lookup tp.1 with
            | some nd =>
              if st.2.2 then .ok (st.1 * nd.1 ^ p, st.2.1 * nd.2 ^ p, st.2.2)
              else .ok (st.1 * nd.2 ^ p, st.2.1 * nd.1 ^ p, st.2.2)
            | none => .error ("Unknown unit name specified: " ++ String.mk tp.1)
    (splitOnSpace unit).foldlM step (1, 1, true) |>.map fun st => ⟨st.1, st.2.1⟩

/-- Unit.isUnitless: the stored pair equals (1, 1). -/
def Unit.isUnitless (u : Unit) : Bool := u.numerator == 1 && u.denominator == 1

/-- Unit times Unit: multiply numerators and denominators, then reduce via
the tuple constructor. -/
def Unit.mul (a b : Unit) : Except String Unit :=
  Unit.ofTuple (a.numerator * b.numerator) (a.denominator * b.denominator)

/-- Unit divided by Unit: cross-multiply, then reduce via the tuple
constructor. -/
def Unit.div (a b : Unit) : Except String Unit :=
  Unit.ofTuple (a.numerator * b.denominator) (a.denominator * b.numerator)

/-- Result type of Unit.__pow__: normally an SI.Unit, but the p = 0 branch
of the source returns the bare Python tuple (1, 1) instead of a Unit
object. -/
inductive PowResult where
  | unitRes : Unit → PowResult
  | tupleRes : ℕ → ℕ → PowResult
deriving DecidableEq

/-- Real-number value of base**q for a natural base and a positive rational
exponent: some value exactly when it is integral (the int(num) == num test
of the source), none otherwise. -/
def ratRoot (n : ℕ) (q : ℚ) : Option ℕ :=
  let y := n ^ q.num.toNat
  (List.range (y + 2)).find? (fun k => k ^ q.den == y)

/-- Unit.__pow__ with a rational exponent, mirroring the source's branch
order.  In the integer p below -1 branch the source computes numerator**p,
which Python evaluates as a float reciprocal, and truncates it with int();
the truncation of the exact value is the rational floor.  The p = 0 branch
returns the raw tuple (1, 1). -/
def Unit.pow (u : Unit) (p : ℚ) : Except String PowResult :=
  if u.numerator = 1 ∧ u.denominator = 1 then .ok (.unitRes u)
  else if 1 ≤ p ∧ p.den = 1 then
    (Unit.ofTuple (u.numerator ^ p.num.toNat) (u.denominator ^ p.num.toNat)).map .unitRes
  else if p ≤ -1 ∧ p.den = 1 then
    if u.numerator = 0 ∨ u.denominator = 0 then
      .error ("ZeroDivisionError: 0.0 cannot be raised to a negative power")
    else
      let numQ : ℚ := (u.denominator : ℚ) ^ p.num
      let denQ : ℚ := (u.numerator : ℚ) ^ p.num
      (Unit.ofTuple ⌊numQ⌋.toNat ⌊denQ⌋.toNat).map .unitRes
  else if p = 0 then .ok (.tupleRes 1 1)
  else if 0 < p then
    match ratRoot u.numerator p, ratRoot u.denominator p with
    | some n, some d => (Unit.ofTuple n d).map .unitRes
    | _, _ =>
      if p = 1/2 then .error ("Cannot compute square root of unit")
      else .error ("Cannot compute power of unit")
  else
    match ratRoot u.numerator (-p), ratRoot u.denominator (-p) with
    | some dn, some nm => (Unit.ofTuple nm dn).map .unitRes
    | _, _ => .error ("Cannot compute power of unit")

/-- The prefixes dictionary of SI.Prefix.normalizeTuple: one-character SI
prefix (or the empty string) to its power of ten. -/
def pfxPower (p : UStr) : Option ℤ :=
  [("y".toList, (-24:ℤ)), ("z".toList, -21), ("a".toList, -18), ("f".toList, -15),
   ("p".toList, -12), ("n".toList, -9), ("u".toList, -6), ("μ".toList, -6),
   ("m".toList, -3), ("c".toList, -2), ("".toList, 0), ("k".toList, 3),
   ("M".toList, 6), ("G".toList, 9), ("T".toList, 12), ("P".toList, 15),
   ("E".toList, 18), ("Z".toList, 21), ("Y".toList, 24)].lookup p

/-- The inverse prefixes dictionary of SI.Prefix.standardizeTuple: power of
ten to prefix string, with the micro sign depending on strictAscii. -/
def sPfxOfIndex (strictAscii : Bool) (i : ℤ) : Option UStr :=
  if i = -24 then some ("y".toList) else if i = -21 then some ("z".toList)
  else if i = -18 then some ("a".toList) else if i = -15 then some ("f".toList)
  else if i = -12 then some ("p".toList) else if i = -9 then some ("n".toList)
  else if i = -6 then some ((if strictAscii then "u" else "μ").toList)
  else if i = -3 then some ("m".toList) else if i = -2 then some ("c".toList)
  else if i = 0 then some ([] : UStr) else if i = 3 then some ("k".toList)
  else if i = 6 then some ("M".toList) else if i = 9 then some ("G".toList)
  else if i = 12 then some ("T".toList) else if i = 15 then some ("P".toList)
  else if i = 18 then some ("E".toList) else if i = 21 then some ("Z".toList)
  else if i = 24 then some ("Y".toList) else none

/-- The units that SI.Prefix.normalizeTuple never splits into prefix and
base even though they have more than one character. -/
def noSplitUnit (unit : UStr) : Bool :=
  unit == "kg".toList || unit == "cal".toList || unit == "mol".toList || unit == "cd".toList

/-- The body of SI.Prefix.normalizeTuple after its initial whitespace
strip: split off a one-character prefix from any multi-character unit other
than kg, cal, mol and cd, scale the value by the prefix power (falling back
to no prefix when the first character is not in the prefix table), convert
the mass units t and g to kg, and swap the Ohm spelling according to
strictAscii. -/
def normalizeCore (strictAscii : Bool) (value : ℚ) (unit : UStr) : ℚ × UStr :=
  let sp :=
    if 1 < unit.length ∧ noSplitUnit unit = false
    then (unit.drop 1, unit.take 1)
    else (unit, ([] : UStr))
  let bp :=
    match pfxPower sp.2 with
    | some pw => (sp.1, pw)
    | none => (unit, (0:ℤ))
  let number := value * (10:ℚ) ^ bp.2
  if bp.1 = [] then (number, bp.1)
  else
    let nb :=
      if bp.1 = "t".toList then (number * 1000, "kg".toList)
      else if bp.1 = "g".toList then (number / 1000, "kg".toList)
      else (number, bp.1)
    let base :=
      if nb.2 = "Ω".toList ∧ strictAscii then "Ohm".toList
      else if nb.2 = "Ohm".toList ∧ ¬strictAscii then "Ω".toList
      else nb.2
    (nb.1, base)

/-- SI.Prefix.normalizeTuple: strip the whitespace off the unit string, then
normalize. -/
def normalizeTuple (strictAscii : Bool) (value : ℚ) (unitIn : UStr) : ℚ × UStr :=
  normalizeCore strictAscii value (stripWS unitIn)

/-- The body of SI.Prefix.standardizeTuple after its initial normalization:
choose the prefix step as the multiple of three below the decimal exponent
(with the centi exception for metres), remap kg to t or g, scale the
mantissa, and fall back to the unscaled number when the step is outside the
prefix table.  The integerBits parameter of the source is modelled as always
None, which is how every modelled claim calls it. -/
def standardizeCore (strictAscii : Bool) (number : ℚ) (baseUnit : UStr) : ℚ × UStr :=
  if baseUnit = [] then (number, baseUnit)
  else
    let absval := |number|
    let sign : ℚ := if number < 0 then -1 else 1
    if absval = 0 then (number, baseUnit)
    else
      let power10 := floorLog10 absval
      let pIdx : ℤ :=
        if baseUnit = "m".toList ∧ (power10 = -1 ∨ power10 = -2)
        then -2 else Int.fdiv power10 3 * 3
      let bap :=
        if baseUnit = "kg".toList then
          if 3 ≤ pIdx ∧ pIdx ≤ 27 then ("t".toList, absval / 1000, pIdx - 3)
          else if pIdx < 0 ∧ -27 ≤ pIdx then ("g".toList, absval * 1000, pIdx + 3)
          else (baseUnit, absval, pIdx)
        else (baseUnit, absval, pIdx)
      let newval := bap.2.1 / (10:ℚ) ^ bap.2.2 * sign
      match sPfxOfIndex strictAscii bap.2.2 with
      | some p => (newval, p ++ bap.1)
      | none => (number, bap.1)

/-- SI.Prefix.standardizeTuple: normalize, then choose the best prefix. -/
def standardizeTuple (strictAscii : Bool) (value : ℚ) (unit : UStr) : ℚ × UStr :=
  let nt := normalizeTuple strictAscii value unit
  standardizeCore strictAscii nt.1 nt.2

/-- The two-token branch of SI.Prefix.fromString, with the numeric literal
already read as the rational it denotes: normalize the (number, unit
token) pair. -/
def fromStringPair (strictAscii : Bool) (number : ℚ) (unitTok : UStr) : ℚ × UStr :=
  normalizeTuple strictAscii number unitTok

/-- SI.Prefix.toString modelled at the value level: the rational value
denoted by the printed numeric literal together with the printed unit.  The
formatSpec parameter of the source is modelled as absent. -/
def toStringTuple (strictAscii : Bool) (precision : Option ℕ) (value : ℚ) (unit : UStr) :
    ℚ × UStr :=
  let st := standardizeTuple strictAscii value unit
  let newval := st.1
  match precision with
  | none => (if newval = 0 then newval else roundSig 6 newval, st.2)
  | some prec =>
    if newval = 0 then (newval, st.2)
    else
      let delta := |(pyRound newval : ℚ) - newval|
      let predigits : ℤ := max 0 (floorLog10 |newval| + 1)
      let postdigits : ℤ := max 0 ((prec : ℤ) - predigits)
      if 1 < |newval| ∧ delta ≤ 5 * (10:ℚ) ^ (-postdigits - 1) then
        ((pyRound newval : ℚ), st.2)
      else if (10:ℚ) ^ (27:ℕ) < |newval| ∨ |newval| < (10:ℚ) ^ (-24 : ℤ) then
        (roundSig postdigits.toNat newval, st.2)
      else (roundDec postdigits newval, st.2)

end SI

/-- PObject: the magnitude (exact rational model of a Python number), the
stored SI.Unit, the digits attribute, and the digits entry of the stored
kwargs bag, which is the only bag entry the modelled operations touch. -/
structure PObject where
  value : ℚ
  unit : SI.Unit
  digits : ℕ
  kwargsDigits : ℕ
deriving DecidableEq

/-- PObject construction from a value and a single-token unit string: the
constructor routes them through SI.Prefix.fromString (hence normalizeTuple)
and then builds the SI.Unit from the resulting base unit, defaulting digits
to 6 in both the attribute and the kwargs bag. -/
def PObject.make (v : ℚ) (unitTok : UStr) : Except String PObject :=
  let nt := SI.normalizeTuple false v unitTok
  (SI.Unit.parse nt.2).map fun u => ⟨nt.1, u, 6, 6⟩

/-- PObject.__add__ for a PObject right operand.  The kwargs bag of self is
taken by reference, so setting its digits entry to the larger digits value
mutates self; the returned pair is (result, self after the call).  A
unitless self returns the bare sum. -/
def PObject.add (self other : PObject) : Except String ((ℚ ⊕ PObject) × PObject) :=
  if other.unit ≠ self.unit then
    .error ("only objects with identical units can be added to each other")
  else
    let resval := self.value + other.value
    let d := max self.digits other.digits
    let mutSelf : PObject := { self with kwargsDigits := d }
    if self.unit.isUnitless then .ok (Sum.inl resval, mutSelf)
    else .ok (Sum.inr ⟨resval, self.unit, d, d⟩, mutSelf)

/-- PObject.__mul__ for a PObject right operand.  The digits entry of self's
kwargs bag is set to the larger digits value (mutating self), the units are
multiplied, and a unitless result collapses to the bare product of the
magnitudes.  The returned pair is (result, self after the call). -/
def PObject.mul (self other : PObject) : Except String ((ℚ ⊕ PObject) × PObject) :=
  let d := max self.digits other.digits
  let mutSelf : PObject := { self with kwargsDigits := d }
  match SI.Unit.mul self.unit other.unit with
  | .error e => .error e
  | .ok u =>
    let res : PObject := ⟨self.value * other.value, u, d, d⟩
    if u.isUnitless then .ok (Sum.inl res.value, mutSelf)
    else .ok (Sum.inr res, mutSelf)

/-- PObject.__eq__ against a plain number: false for a unit-bearing object
unless the number is the literal 0, otherwise compare magnitudes. -/
def PObject.eqNum (self : PObject) (other : ℚ) : Bool :=
  if ¬(self.unit.isUnitless = true ∨ other = 0) then false
  else self.value == other

section Verification

attribute [local semireducible] Rat.mul Rat.add Rat.sub Rat.inv Rat.ofScientific

set_option maxRecDepth 8000

/-- A character list without whitespace is unchanged by dropWhile on
whitespace. -/
theorem dropWhile_ws_eq_self (l : UStr) (h : ∀ c ∈ l, c.isWhitespace = false) :
    l.dropWhile Char.isWhitespace = l := by
  cases l with
  | nil => rfl
  | cons a t => simp [List.dropWhile_cons, h a (List.mem_cons_self a t)]

/-- A character list without whitespace is unchanged by the whitespace
strip. -/
theorem stripWS_eq_self (l : UStr) (h : ∀ c ∈ l, c.isWhitespace = false) :
    stripWS l = l := by
  unfold stripWS
  rw [dropWhile_ws_eq_self l h,
      dropWhile_ws_eq_self l.reverse (fun c hc => h c (List.mem_reverse.mp hc)),
      List.reverse_reverse]

/-- normalizeCore returns a (value, unit) pair untouched when the unit is
not split into prefix and base and is none of the specially rewritten unit
names. -/
theorem normalizeCore_plain (v : ℚ) (U : UStr)
    (hsplit : ¬(1 < U.length ∧ SI.noSplitUnit U = false))
    (hne : U ≠ []) (hg : U ≠ "g".toList) (ht : U ≠ "t".toList)
    (hOhm : U ≠ "Ohm".toList) :
    SI.normalizeCore false v U = (v, U) := by
  have h0 : SI.pfxPower ([] : UStr) = some 0 := by decide
  replace hg : U ≠ (['g'] : UStr) := hg
  replace ht : U ≠ (['t'] : UStr) := ht
  replace hOhm : U ≠ (['O', 'h', 'm'] : UStr) := hOhm
  unfold SI.normalizeCore
  simp [if_neg hsplit, h0, hne, hg, ht, hOhm]

/-- normalizeCore strips a recognized one-character prefix off a compound
unit token and scales the value by the prefix power, provided the token is
not one of the four unsplittable names and the remaining base unit is not
specially rewritten. -/
theorem normalizeCore_cons (x : ℚ) (c : Char) (U : UStr) (pw : ℤ)
    (hc : SI.pfxPower [c] = some pw) (hne : U ≠ [])
    (hkg : (c :: U) ≠ "kg".toList) (hcal : (c :: U) ≠ "cal".toList)
    (hmol : (c :: U) ≠ "mol".toList) (hcd : (c :: U) ≠ "cd".toList)
    (hg : U ≠ "g".toList) (ht : U ≠ "t".toList) (hOhm : U ≠ "Ohm".toList) :
    SI.normalizeCore false x (c :: U) = (x * (10:ℚ) ^ pw, U) := by
  have hlen : 1 < (c :: U).length := by
    have := List.length_pos.mpr hne
    simp only [List.length_cons]
    omega
  replace hkg : c :: U ≠ (['k', 'g'] : UStr) := hkg
  replace hcal : c :: U ≠ (['c', 'a', 'l'] : UStr) := hcal
  replace hmol : c :: U ≠ (['m', 'o', 'l'] : UStr) := hmol
  replace hcd : c :: U ≠ (['c', 'd'] : UStr) := hcd
  replace hg : U ≠ (['g'] : UStr) := hg
  replace ht : U ≠ (['t'] : UStr) := ht
  replace hOhm : U ≠ (['O', 'h', 'm'] : UStr) := hOhm
  have hpos : 0 < U.length := List.length_pos.mpr hne
  have hns : SI.noSplitUnit (c :: U) = false := by
    simp only [SI.noSplitUnit, Bool.or_eq_false_iff, beq_eq_false_iff_ne]
    exact ⟨⟨⟨hkg, hcal⟩, hmol⟩, hcd⟩
  unfold SI.normalizeCore
  simp [hlen, hpos, hns, hc, hne, hg, ht, hOhm]

/-- Every prefix string produced by the standardize-direction prefix table
is either the empty prefix at step 0 or a single non-whitespace character
that the normalize-direction prefix table maps back to the same step. -/
theorem sPfxOfIndex_inv (i : ℤ) (p : UStr) (h : SI.sPfxOfIndex false i = some p) :
    (p = [] ∧ i = 0) ∨
      ∃ c, p = [c] ∧ SI.pfxPower [c] = some i ∧ c.isWhitespace = false ∧
        -24 ≤ i ∧ i ≤ 24 := by
  rcases eq_or_ne i (-24) with rfl | n0
  · obtain rfl : p = ['y'] := (Option.some.inj ((by decide : SI.sPfxOfIndex false (-24) = some ['y']).symm.trans h)).symm
    exact Or.inr ⟨'y', rfl, by decide, by decide, by decide, by decide⟩
  rcases eq_or_ne i (-21) with rfl | n1
  · obtain rfl : p = ['z'] := (Option.some.inj ((by decide : SI.sPfxOfIndex false (-21) = some ['z']).symm.trans h)).symm
    exact Or.inr ⟨'z', rfl, by decide, by decide, by decide, by decide⟩
  rcases eq_or_ne i (-18) with rfl | n2
  · obtain rfl : p = ['a'] := (Option.some.inj ((by decide : SI.sPfxOfIndex false (-18) = some ['a']).symm.trans h)).symm
    exact Or.inr ⟨'a', rfl, by decide, by decide, by decide, by decide⟩
  rcases eq_or_ne i (-15) with rfl | n3
  · obtain rfl : p = ['f'] := (Option.some.inj ((by decide : SI.sPfxOfIndex false (-15) = some ['f']).symm.trans h)).symm
    exact Or.inr ⟨'f', rfl, by decide, by decide, by decide, by decide⟩
  rcases eq_or_ne i (-12) with rfl | n4
  · obtain rfl : p = ['p'] := (Option.some.inj ((by decide : SI.sPfxOfIndex false (-12) = some ['p']).symm.trans h)).symm
    exact Or.inr ⟨'p', rfl, by decide, by decide, by decide, by decide⟩
  rcases eq_or_ne i (-9) with rfl | n5
  · obtain rfl : p = ['n'] := (Option.some.inj ((by decide : SI.sPfxOfIndex false (-9) = some ['n']).symm.trans h)).symm
    exact Or.inr ⟨'n', rfl, by decide, by decide, by decide, by decide⟩
  rcases eq_or_ne i (-6) with rfl | n6
  · obtain rfl : p = ['μ'] := (Option.some.inj ((by decide : SI.sPfxOfIndex false (-6) = some ['μ']).symm.trans h)).symm
    exact Or.inr ⟨'μ', rfl, by decide, by decide, by decide, by decide⟩
  rcases eq_or_ne i (-3) with rfl | n7
  · obtain rfl : p = ['m'] := (Option.some.inj ((by decide : SI.sPfxOfIndex false (-3) = some ['m']).symm.trans h)).symm
    exact Or.inr ⟨'m', rfl, by decide, by decide, by decide, by decide⟩
  rcases eq_or_ne i (-2) with rfl | n8
  · obtain rfl : p = ['c'] := (Option.some.inj ((by decide : SI.sPfxOfIndex false (-2) = some ['c']).symm.trans h)).symm
    exact Or.inr ⟨'c', rfl, by decide, by decide, by decide, by decide⟩
  rcases eq_or_ne i (0) with rfl | n9
  · obtain rfl : p = [] := (Option.some.inj ((by decide : SI.sPfxOfIndex false 0 = some []).symm.trans h)).symm
    exact Or.inl ⟨rfl, rfl⟩
  rcases eq_or_ne i (3) with rfl | n10
  · obtain rfl : p = ['k'] := (Option.some.inj ((by decide : SI.sPfxOfIndex false (3) = some ['k']).symm.trans h)).symm
    exact Or.inr ⟨'k', rfl, by decide, by decide, by decide, by decide⟩
  rcases eq_or_ne i (6) with rfl | n11
  · obtain rfl : p = ['M'] := (Option.some.inj ((by decide : SI.sPfxOfIndex false (6) = some ['M']).symm.trans h)).symm
    exact Or.inr ⟨'M', rfl, by decide, by decide, by decide, by decide⟩
  rcases eq_or_ne i (9) with rfl | n12
  · obtain rfl : p = ['G'] := (Option.some.inj ((by decide : SI.sPfxOfIndex false (9) = some ['G']).symm.trans h)).symm
    exact Or.inr ⟨'G', rfl, by decide, by decide, by decide, by decide⟩
  rcases eq_or_ne i (12) with rfl | n13
  · obtain rfl : p = ['T'] := (Option.some.inj ((by decide : SI.sPfxOfIndex false (12) = some ['T']).symm.trans h)).symm
    exact Or.inr ⟨'T', rfl, by decide, by decide, by decide, by decide⟩
  rcases eq_or_ne i (15) with rfl | n14
  · obtain rfl : p = ['P'] := (Option.some.inj ((by decide : SI.sPfxOfIndex false (15) = some ['P']).symm.trans h)).symm
    exact Or.inr ⟨'P', rfl, by decide, by decide, by decide, by decide⟩
  rcases eq_or_ne i (18) with rfl | n15
  · obtain rfl : p = ['E'] := (Option.some.inj ((by decide : SI.sPfxOfIndex false (18) = some ['E']).symm.trans h)).symm
    exact Or.inr ⟨'E', rfl, by decide, by decide, by decide, by decide⟩
  rcases eq_or_ne i (21) with rfl | n16
  · obtain rfl : p = ['Z'] := (Option.some.inj ((by decide : SI.sPfxOfIndex false (21) = some ['Z']).symm.trans h)).symm
    exact Or.inr ⟨'Z', rfl, by decide, by decide, by decide, by decide⟩
  rcases eq_or_ne i (24) with rfl | n17
  · obtain rfl : p = ['Y'] := (Option.some.inj ((by decide : SI.sPfxOfIndex false (24) = some ['Y']).symm.trans h)).symm
    exact Or.inr ⟨'Y', rfl, by decide, by decide, by decide, by decide⟩
  exact absurd h (by simp [SI.sPfxOfIndex, n0, n1, n2, n3, n4, n5, n6, n7, n8, n9, n10, n11, n12, n13, n14, n15, n16, n17])

/-- The mantissa produced by standardizeCore times the chosen power of ten
recovers the original value. -/
theorem mantissa_mul_zpow (v : ℚ) (i : ℤ) :
    |v| / (10:ℚ) ^ i * (if v < 0 then (-1:ℚ) else 1) * (10:ℚ) ^ i = v := by
  have h10 : (10:ℚ) ^ i ≠ 0 := zpow_ne_zero i (by norm_num)
  rcases lt_or_ge v 0 with hv | hv
  · rw [if_pos hv, abs_of_neg hv]
    field_simp
  · rw [if_neg (not_lt.mpr hv), abs_of_nonneg hv]
    field_simp

/-- standardizeCore on a nonzero value and a non-mass nonempty base unit
either returns the scaled mantissa with a prefix from the table, or falls
back to the unscaled value with no prefix. -/
theorem standardizeCore_cases (v : ℚ) (U : UStr) (hne : U ≠ []) (hv : v ≠ 0)
    (hkg : U ≠ "kg".toList) :
    (∃ i p, SI.sPfxOfIndex false i = some p ∧
        SI.standardizeCore false v U =
          (|v| / (10:ℚ) ^ i * (if v < 0 then -1 else 1), p ++ U)) ∨
      SI.standardizeCore false v U = (v, U) := by
  have habs : ¬(|v| = 0) := abs_ne_zero.mpr hv
  simp only [SI.standardizeCore]
  rw [if_neg hne, if_neg habs, if_neg hkg]
  rcases hsp : SI.sPfxOfIndex false
      (if U = "m".toList ∧ (floorLog10 |v| = -1 ∨ floorLog10 |v| = -2) then (-2:ℤ)
       else Int.fdiv (floorLog10 |v|) 3 * 3) with _ | p
  · right
    simp [hsp]
  · left
    exact ⟨_, p, hsp, by simp [hsp]⟩

/-- Every step that is a multiple of three between -24 and 24 has an entry
in the standardize-direction prefix table. -/
theorem sPfxOfIndex_isSome (j : ℤ) (h3 : (3:ℤ) ∣ j) (hlo : -24 ≤ j)
    (hhi : j ≤ 24) : ∃ p, SI.sPfxOfIndex false j = some p := by
  rw [← Option.isSome_iff_exists]
  obtain ⟨k, rfl⟩ := h3
  have hk1 : -8 ≤ k := by omega
  have hk2 : k ≤ 8 := by omega
  interval_cases k <;> decide

/-- A step outside -24..24 has no entry in the standardize-direction prefix
table. -/
theorem sPfxOfIndex_none (j : ℤ) (h : j < -24 ∨ 24 < j) :
    SI.sPfxOfIndex false j = none := by
  rcases hcase : SI.sPfxOfIndex false j with _ | p
  · rfl
  · rcases sPfxOfIndex_inv j p hcase with ⟨_, rfl⟩ | ⟨c, _, _, _, hlo, hhi⟩ <;> omega

/-- normalizeTuple converts a bare gram value to kilograms, dividing the
number by 1000. -/
theorem normalizeTuple_gram (x : ℚ) :
    SI.normalizeTuple false x ("g".toList) = (x / 1000, "kg".toList) := by
  have h0 : SI.pfxPower ([] : UStr) = some 0 := by decide
  rw [SI.normalizeTuple, stripWS_eq_self _ (by decide)]
  simp [SI.normalizeCore, SI.noSplitUnit, h0]

/-- normalizeTuple converts a bare ton value to kilograms, multiplying the
number by 1000. -/
theorem normalizeTuple_ton (x : ℚ) :
    SI.normalizeTuple false x ("t".toList) = (x * 1000, "kg".toList) := by
  have h0 : SI.pfxPower ([] : UStr) = some 0 := by decide
  rw [SI.normalizeTuple, stripWS_eq_self _ (by decide)]
  simp [SI.normalizeCore, SI.noSplitUnit, h0]

/-- normalizeCore on a prefixed ton token: strip the prefix, scale by its
power, then convert tons to kilograms. -/
theorem normalizeCore_cons_t (x : ℚ) (c : Char) (pw : ℤ)
    (hc : SI.pfxPower [c] = some pw) :
    SI.normalizeCore false x (c :: "t".toList) =
      (x * (10:ℚ) ^ pw * 1000, "kg".toList) := by
  unfold SI.normalizeCore
  simp [SI.noSplitUnit, hc]

/-- normalizeCore on a prefixed gram token with a prefix other than k (the
token kg is in the no-split list): strip the prefix, scale by its power,
then convert grams to kilograms. -/
theorem normalizeCore_cons_g (x : ℚ) (c : Char) (pw : ℤ)
    (hc : SI.pfxPower [c] = some pw) (hck : c ≠ 'k') :
    SI.normalizeCore false x (c :: "g".toList) =
      (x * (10:ℚ) ^ pw / 1000, "kg".toList) := by
  unfold SI.normalizeCore
  simp [SI.noSplitUnit, hc, hck]

/-- The ton mantissa times its power of ten times 1000 recovers the
original kilogram value. -/
theorem kg_arith_t (v : ℚ) (i : ℤ) :
    |v| / 1000 / (10:ℚ) ^ i * (if v < 0 then (-1:ℚ) else 1) * (10:ℚ) ^ i * 1000
      = v := by
  have h10 : (10:ℚ) ^ i ≠ 0 := zpow_ne_zero i (by norm_num)
  rcases lt_or_ge v 0 with hv | hv
  · rw [if_pos hv, abs_of_neg hv]
    field_simp
    ring
  · rw [if_neg (not_lt.mpr hv), abs_of_nonneg hv]
    field_simp
    ring

/-- The gram mantissa times its power of ten divided by 1000 recovers the
original kilogram value. -/
theorem kg_arith_g (v : ℚ) (i : ℤ) :
    |v| * 1000 / (10:ℚ) ^ i * (if v < 0 then (-1:ℚ) else 1) * (10:ℚ) ^ i / 1000
      = v := by
  have h10 : (10:ℚ) ^ i ≠ 0 := zpow_ne_zero i (by norm_num)
  rcases lt_or_ge v 0 with hv | hv
  · rw [if_pos hv, abs_of_neg hv]
    field_simp
  · rw [if_neg (not_lt.mpr hv), abs_of_nonneg hv]
    field_simp

/-- standardizeCore on a nonzero kilogram value: remap to tons for steps in
3..27, to grams for steps in -27..-1, keep kilograms with no prefix at step
0, and fall back to the unscaled value outside the prefix range. -/
theorem standardizeCore_kg_cases (v : ℚ) (hv : v ≠ 0) :
    (∃ i p, SI.sPfxOfIndex false i = some p ∧
        SI.standardizeCore false v ("kg".toList) =
          (|v| / 1000 / (10:ℚ) ^ i * (if v < 0 then -1 else 1), p ++ "t".toList)) ∨
      (∃ i p, i ≤ 0 ∧ SI.sPfxOfIndex false i = some p ∧
        SI.standardizeCore false v ("kg".toList) =
          (|v| * 1000 / (10:ℚ) ^ i * (if v < 0 then -1 else 1), p ++ "g".toList)) ∨
      SI.standardizeCore false v ("kg".toList) =
        (|v| / (10:ℚ) ^ (0:ℤ) * (if v < 0 then -1 else 1), "kg".toList) ∨
      SI.standardizeCore false v ("kg".toList) = (v, "kg".toList) := by
  have hne : ("kg".toList : UStr) ≠ [] := by decide
  have habs : ¬(|v| = 0) := abs_ne_zero.mpr hv
  have hm : ¬(("kg".toList : UStr) = "m".toList ∧
      (floorLog10 |v| = -1 ∨ floorLog10 |v| = -2)) := by
    rintro ⟨h1, _⟩
    exact absurd h1 (by decide)
  simp only [SI.standardizeCore]
  rw [if_neg hne, if_neg habs, if_neg hm, if_pos trivial]
  set pI := Int.fdiv (floorLog10 |v|) 3 * 3 with hpI
  have h3 : (3:ℤ) ∣ pI := dvd_mul_left 3 (Int.fdiv (floorLog10 |v|) 3)
  by_cases hc1 : 3 ≤ pI ∧ pI ≤ 27
  · rw [if_pos hc1]
    obtain ⟨p, hp⟩ := sPfxOfIndex_isSome (pI - 3) (dvd_sub h3 (dvd_refl 3))
      (by omega) (by omega)
    left
    exact ⟨pI - 3, p, hp, by simp [hp]⟩
  · rw [if_neg hc1]
    by_cases hc2 : pI < 0 ∧ -27 ≤ pI
    · rw [if_pos hc2]
      obtain ⟨p, hp⟩ := sPfxOfIndex_isSome (pI + 3) (dvd_add h3 (dvd_refl 3))
        (by omega) (by omega)
      right; left
      exact ⟨pI + 3, p, by omega, hp, by simp [hp]⟩
    · rw [if_neg hc2]
      by_cases hc3 : pI = 0
      · right; right; left
        have hp0 : SI.sPfxOfIndex false 0 = some ([] : UStr) := by decide
        rw [hc3]
        simp [hp0]
      · right; right; right
        have hnone : SI.sPfxOfIndex false pI = none := sPfxOfIndex_none pI (by omega)
        simp [hnone]

/-- The kilogram round trip: normalizing the standardized pair of any
kilogram magnitude returns exactly (v, kg), through the gram and ton
remaps, the bare step-0 case and the out-of-range fallback alike. -/
theorem standardize_roundtrip_kg (v : ℚ) :
    SI.normalizeTuple false (SI.standardizeTuple false v ("kg".toList)).1
        (SI.standardizeTuple false v ("kg".toList)).2 = (v, "kg".toList) := by
  have hnkg : ∀ x : ℚ, SI.normalizeTuple false x ("kg".toList) = (x, "kg".toList) := by
    intro x
    rw [SI.normalizeTuple, stripWS_eq_self _ (by decide)]
    exact normalizeCore_plain x ("kg".toList) (by decide) (by decide) (by decide)
      (by decide) (by decide)
  have hstd : SI.standardizeTuple false v ("kg".toList) =
      SI.standardizeCore false v ("kg".toList) := by
    simp only [SI.standardizeTuple, hnkg v]
  rw [hstd]
  rcases eq_or_ne v 0 with rfl | hv
  · have h0 : SI.standardizeCore false 0 ("kg".toList) = (0, "kg".toList) := by decide
    rw [h0]
    exact hnkg 0
  rcases standardizeCore_kg_cases v hv with ⟨i, p, hp, hres⟩ |
    ⟨i, p, hile, hp, hres⟩ | hres | hres
  · rw [hres]
    rcases sPfxOfIndex_inv i p hp with ⟨rfl, rfl⟩ | ⟨c, rfl, hcp, hcw, _, _⟩
    · simp only [List.nil_append]
      rw [normalizeTuple_ton]
      simp only [Prod.mk.injEq]
      refine ⟨?_, trivial⟩
      simpa using kg_arith_t v 0
    · have hws2 : ∀ ch ∈ (c :: "t".toList), ch.isWhitespace = false := by
        intro ch hch
        rcases List.mem_cons.mp hch with rfl | hmem
        · exact hcw
        · replace hmem : ch ∈ (['t'] : UStr) := hmem
          rw [List.mem_singleton] at hmem
          subst hmem
          decide
      rw [show ([c] ++ "t".toList : UStr) = c :: "t".toList from rfl]
      rw [SI.normalizeTuple, stripWS_eq_self _ hws2, normalizeCore_cons_t _ c i hcp]
      simp only [Prod.mk.injEq]
      exact ⟨kg_arith_t v i, trivial⟩
  · rw [hres]
    rcases sPfxOfIndex_inv i p hp with ⟨rfl, rfl⟩ | ⟨c, rfl, hcp, hcw, _, _⟩
    · simp only [List.nil_append]
      rw [normalizeTuple_gram]
      simp only [Prod.mk.injEq]
      refine ⟨?_, trivial⟩
      simpa using kg_arith_g v 0
    · have hck : c ≠ 'k' := by
        intro hEq
        subst hEq
        have h3k : SI.pfxPower ['k'] = some 3 := by decide
        rw [h3k] at hcp
        have : (3:ℤ) = i := Option.some.inj hcp
        omega
      have hws2 : ∀ ch ∈ (c :: "g".toList), ch.isWhitespace = false := by
        intro ch hch
        rcases List.mem_cons.mp hch with rfl | hmem
        · exact hcw
        · replace hmem : ch ∈ (['g'] : UStr) := hmem
          rw [List.mem_singleton] at hmem
          subst hmem
          decide
      rw [show ([c] ++ "g".toList : UStr) = c :: "g".toList from rfl]
      rw [SI.normalizeTuple, stripWS_eq_self _ hws2,
        normalizeCore_cons_g _ c i hcp hck]
      simp only [Prod.mk.injEq]
      exact ⟨kg_arith_g v i, trivial⟩
  · rw [hres]
    rw [hnkg _]
    simp only [Prod.mk.injEq]
    refine ⟨?_, trivial⟩
    simpa using mantissa_mul_zpow v 0
  · rw [hres]
    exact hnkg v

/-- C2, amended.  The display round trip is lossy: toDisplayString rounds to
the displayed significant digits, so standardize of fromString of
toDisplayString reproduces only the displayed approximation of (v, U), not
(v, U) itself.  What does hold, for every magnitude v and every base unit
symbol U - a single non-whitespace character other than g, t or d, one of
the multi-character base units mol and cd, or the mass unit kg with its
gram/ton remapping - is that prefix selection is deterministic and
reversible before display rounding: normalizing the standardized pair
returns exactly (v, U), and standardize of fromString of the standardized
pair is the standardized pair itself. -/
theorem standardize_roundtrip_amended (v : ℚ) (U : UStr)
    (hform : U.length = 1 ∨ U = "mol".toList ∨ U = "cd".toList ∨ U = "kg".toList)
    (hws : ∀ c ∈ U, c.isWhitespace = false)
    (hg : U ≠ "g".toList) (ht : U ≠ "t".toList) (hd : U ≠ "d".toList)
    (hal : U ≠ "al".toList) (hol : U ≠ "ol".toList) :
    SI.normalizeTuple false (SI.standardizeTuple false v U).1
        (SI.standardizeTuple false v U).2 = (v, U) ∧
      SI.standardizeTuple false (SI.standardizeTuple false v U).1
          (SI.standardizeTuple false v U).2 = SI.standardizeTuple false v U := by
  by_cases hKG : U = "kg".toList
  · subst hKG
    have hnkg : ∀ x : ℚ, SI.normalizeTuple false x ("kg".toList) = (x, "kg".toList) := by
      intro x
      rw [SI.normalizeTuple, stripWS_eq_self _ (by decide)]
      exact normalizeCore_plain x ("kg".toList) (by decide) (by decide) (by decide)
        (by decide) (by decide)
    have hstd : SI.standardizeTuple false v ("kg".toList) =
        SI.standardizeCore false v ("kg".toList) := by
      simp only [SI.standardizeTuple, hnkg v]
    have key : SI.normalizeTuple false (SI.standardizeCore false v ("kg".toList)).1
        (SI.standardizeCore false v ("kg".toList)).2 = (v, "kg".toList) := by
      rw [← hstd]
      exact standardize_roundtrip_kg v
    constructor
    · rw [hstd]
      exact key
    · rw [hstd]
      simp only [SI.standardizeTuple, key]
  · replace hform : U.length = 1 ∨ U = "mol".toList ∨ U = "cd".toList := by
      rcases hform with h | h | h | h
      · exact Or.inl h
      · exact Or.inr (Or.inl h)
      · exact Or.inr (Or.inr h)
      · exact absurd h hKG
    have hne : U ≠ [] := by
      rcases hform with h | h | h
      · intro hEq
        rw [hEq] at h
        exact absurd h (by decide)
      · rw [h]; decide
      · rw [h]; decide
    have hsplit : ¬(1 < U.length ∧ SI.noSplitUnit U = false) := by
      rcases hform with h | h | h
      · rintro ⟨h1, _⟩; omega
      · rintro ⟨_, h2⟩
        rw [h] at h2
        exact absurd h2 (by decide)
      · rintro ⟨_, h2⟩
        rw [h] at h2
        exact absurd h2 (by decide)
    have hkg : U ≠ "kg".toList := by
      rcases hform with h | h | h
      · intro hEq
        rw [hEq] at h
        exact absurd h (by decide)
      · rw [h]; decide
      · rw [h]; decide
    have hOhm : U ≠ "Ohm".toList := by
      rcases hform with h | h | h
      · intro hEq
        rw [hEq] at h
        exact absurd h (by decide)
      · rw [h]; decide
      · rw [h]; decide
    have hnx : ∀ x : ℚ, SI.normalizeTuple false x U = (x, U) := fun x => by
      rw [SI.normalizeTuple, stripWS_eq_self U hws]
      exact normalizeCore_plain x U hsplit hne hg ht hOhm
    have hstd : SI.standardizeTuple false v U = SI.standardizeCore false v U := by
      simp only [SI.standardizeTuple, hnx v]
    have key : SI.normalizeTuple false (SI.standardizeCore false v U).1
        (SI.standardizeCore false v U).2 = (v, U) := by
      rcases eq_or_ne v 0 with rfl | hv
      · have h0 : SI.standardizeCore false 0 U = (0, U) := by
          simp [SI.standardizeCore, hne]
        rw [h0]
        exact hnx 0
      · rcases standardizeCore_cases v U hne hv hkg with ⟨i, p, hsp, hres⟩ | hres
        · rw [hres]
          rcases sPfxOfIndex_inv i p hsp with ⟨rfl, rfl⟩ | ⟨c, rfl, hcp, hcw, _, _⟩
          · simp only [List.nil_append]
            rw [hnx _]
            have hval : |v| / (10:ℚ) ^ (0:ℤ) * (if v < 0 then -1 else 1) = v := by
              simpa using mantissa_mul_zpow v 0
            rw [hval]
          · have hws2 : ∀ ch ∈ (c :: U), ch.isWhitespace = false := by
              intro ch hch
              rcases List.mem_cons.mp hch with rfl | hmem
              · exact hcw
              · exact hws ch hmem
            have h2kg : (c :: U) ≠ "kg".toList := by
              intro hEq
              exact hg (by simpa using congrArg List.tail hEq)
            have h2cal : (c :: U) ≠ "cal".toList := by
              intro hEq
              exact hal (by simpa using congrArg List.tail hEq)
            have h2mol : (c :: U) ≠ "mol".toList := by
              intro hEq
              exact hol (by simpa using congrArg List.tail hEq)
            have h2cd : (c :: U) ≠ "cd".toList := by
              intro hEq
              exact hd (by simpa using congrArg List.tail hEq)
            have hcons := normalizeCore_cons
              (|v| / (10:ℚ) ^ i * (if v < 0 then -1 else 1)) c U i hcp hne
              h2kg h2cal h2mol h2cd hg ht hOhm
            rw [show ([c] ++ U : UStr) = c :: U from rfl]
            rw [SI.normalizeTuple, stripWS_eq_self _ hws2, hcons,
                mantissa_mul_zpow v i]
        · rw [hres]
          exact hnx v
    constructor
    · rw [hstd]
      exact key
    · rw [hstd]
      simp only [SI.standardizeTuple, key]

/-- C1: multiplying two Quantities whose Dimensions are exact reciprocals of
each other (the product of their Dimensions reduces to the dimensionless
unit) returns the bare product of the two magnitudes, never a Quantity. -/
theorem pobject_mul_reciprocal_collapse (a b : PObject) (u : SI.Unit)
    (h : SI.Unit.mul a.unit b.unit = Except.ok u) (hu : u.isUnitless = true) :
    (PObject.mul a b).map Prod.fst = Except.ok (Sum.inl (a.value * b.value)) := by
  simp only [PObject.mul]
  rw [h]
  simp [hu, Except.map]

/-- C1 witness: a second and a reciprocal second Quantity multiply to the
bare number 6. -/
theorem pobject_mul_reciprocal_collapse_witness :
    SI.Unit.mul ⟨5, 1⟩ ⟨1, 5⟩ = Except.ok ⟨1, 1⟩ ∧
      SI.Unit.isUnitless ⟨1, 1⟩ = true ∧
      (PObject.mul ⟨2, ⟨5, 1⟩, 6, 6⟩ ⟨3, ⟨1, 5⟩, 6, 6⟩).map Prod.fst =
        Except.ok (Sum.inl 6) := by
  refine ⟨by decide, by decide, ?_⟩
  have h := pobject_mul_reciprocal_collapse ⟨2, ⟨5, 1⟩, 6, 6⟩ ⟨3, ⟨1, 5⟩, 6, 6⟩
    ⟨1, 1⟩ (by decide) (by decide)
  have h6 : (2:ℚ) * 3 = 6 := by norm_num
  rw [h6] at h
  exact h

/-- C3: the claim that multiply(d, power(d, -1)) is dimensionless fails on
the code.  Python evaluates numerator**(-1) as a float reciprocal and int()
truncates it to 0, so power(Unit "m", -1) is the Unit (1, 0), whose product
with m is (1, 0), not dimensionless; for Unit "N" the truncated pair is
(0, 0) and the constructor raises ZeroDivisionError. -/
theorem unit_pow_neg_one_violates_inverse_law :
    SI.Unit.parse ("m".toList) = Except.ok ⟨2, 1⟩ ∧
      SI.Unit.pow ⟨2, 1⟩ (-1) = Except.ok (SI.PowResult.unitRes ⟨1, 0⟩) ∧
      SI.Unit.mul ⟨2, 1⟩ ⟨1, 0⟩ = Except.ok ⟨1, 0⟩ ∧
      SI.Unit.isUnitless ⟨1, 0⟩ = false ∧
      SI.Unit.parse ("N".toList) = Except.ok ⟨6, 25⟩ ∧
      SI.Unit.pow ⟨6, 25⟩ (-1) =
        Except.error ("ZeroDivisionError: integer division or modulo by zero") := by
  decide

/-- C4 counterexample: the string-parsing constructor does not reduce, so
Unit("m / m") stores the pair (2, 2), which is not in lowest terms and is
not flagged dimensionless. -/
theorem parse_m_over_m_not_reduced :
    SI.Unit.parse ("m / m".toList) = Except.ok ⟨2, 2⟩ ∧
      Nat.gcd 2 2 ≠ 1 ∧ SI.Unit.isUnitless ⟨2, 2⟩ = false := by
  decide

/-- C4, amended: every Dimension built through the tuple constructor (hence
every result of multiply, divide and integer power) is stored in lowest
terms and is dimensionless exactly when both components are 1; Dimensions
built by parsing a unit string are stored unreduced. -/
theorem ofTuple_lowest_terms_amended (n d : ℕ) (hn : 0 < n) (hd : 0 < d) :
    ∃ u, SI.Unit.ofTuple n d = Except.ok u ∧
      Nat.Coprime u.numerator u.denominator ∧
      (u.isUnitless = true ↔ u.numerator = 1 ∧ u.denominator = 1) := by
  have hg : Nat.gcd n d ≠ 0 := by
    intro h
    rcases Nat.gcd_eq_zero_iff.mp h with ⟨h1, _⟩
    omega
  refine ⟨⟨n / Nat.gcd n d, d / Nat.gcd n d⟩, ?_, ?_, ?_⟩
  · simp [SI.Unit.ofTuple, hg]
  · exact Nat.coprime_div_gcd_div_gcd (Nat.pos_of_ne_zero hg)
  · simp [SI.Unit.isUnitless]

/-- C4 witness: the tuple (4, 6) reduces to the coprime pair (2, 3). -/
theorem ofTuple_lowest_terms_amended_witness :
    ∃ u, SI.Unit.ofTuple 4 6 = Except.ok u ∧
      Nat.Coprime u.numerator u.denominator ∧
      (u.isUnitless = true ↔ u.numerator = 1 ∧ u.denominator = 1) :=
  ofTuple_lowest_terms_amended 4 6 (by decide) (by decide)

/-- C6 counterexample: power -0.5 of the product of the Dimensions of H and
F yields the Dimension (1, 5), which is the derived unit Hz, not the base
unit s = (5, 1). -/
theorem hf_pow_neg_half_is_not_second :
    (do
      let h ← SI.Unit.parse ("H".toList)
      let f ← SI.Unit.parse ("F".toList)
      let hf ← SI.Unit.mul h f
      SI.Unit.pow hf (-(1/2)) : Except String SI.PowResult) =
        Except.ok (SI.PowResult.unitRes ⟨1, 5⟩) ∧
      SI.Unit.parse ("s".toList) = Except.ok ⟨5, 1⟩ ∧
      (⟨1, 5⟩ : SI.Unit) ≠ ⟨5, 1⟩ ∧
      SI.namesList.lookup ("Hz".toList) = some (1, 5) := by
  decide

/-- C6, amended: raising parse("H") * parse("F") to the power +0.5 reduces
to the base unit s, while the power -0.5 of the claim reduces to the
derived unit Hz (the reciprocal second). -/
theorem hf_pow_half_amended :
    (do
      let h ← SI.Unit.parse ("H".toList)
      let f ← SI.Unit.parse ("F".toList)
      let hf ← SI.Unit.mul h f
      SI.Unit.pow hf (1/2) : Except String SI.PowResult) =
        Except.ok (SI.PowResult.unitRes ⟨5, 1⟩) ∧
      SI.namesList.lookup ("s".toList) = some (5, 1) ∧
      (do
        let h ← SI.Unit.parse ("H".toList)
        let f ← SI.Unit.parse ("F".toList)
        let hf ← SI.Unit.mul h f
        SI.Unit.pow hf (-(1/2)) : Except String SI.PowResult) =
          Except.ok (SI.PowResult.unitRes ⟨1, 5⟩) := by
  decide

/-- C7: for a non-dimensionless Dimension such as Unit("m"), raising to the
power 0 returns the raw Python tuple (1, 1), not a Unit object, although
the method's own docstring promises an SI.Unit return; only the
dimensionless Dimension itself is returned as a Unit by the early-exit
branch. -/
theorem unit_pow_zero_returns_raw_tuple :
    SI.Unit.parse ("m".toList) = Except.ok ⟨2, 1⟩ ∧
      SI.Unit.pow ⟨2, 1⟩ 0 = Except.ok (SI.PowResult.tupleRes 1 1) ∧
      SI.Unit.pow ⟨1, 1⟩ 0 = Except.ok (SI.PowResult.unitRes ⟨1, 1⟩) := by
  decide

/-- C2 counterexample: for v = 1234 and base unit s, toDisplayString renders
the standardized mantissa 1.234 as 1.23 at the default 3 significant
digits, fromString scales it back to 1230, and the final standardize
returns (1.23, ks) - not (1234, s), and off by 4 base seconds, far beyond
floating-point tolerance. -/
theorem display_roundtrip_counterexample :
    (let d := SI.toStringTuple false (some 3) 1234 ("s".toList)
     let f := SI.fromStringPair false d.1 d.2
     let s := SI.standardizeTuple false f.1 f.2
     d = (123/100, "ks".toList) ∧ f.1 = 1230 ∧
       s = (123/100, "ks".toList) ∧ s ≠ (1234, "s".toList)) := by
  decide

/-- C2 witness: the amended reversibility at v = 1234, U = s and at the
mass ladder point v = 0.5, U = kg (standardized to 500 g): normalizing the
standardized pair returns exactly the original pair in both cases. -/
theorem standardize_roundtrip_amended_witness :
    SI.normalizeTuple false (SI.standardizeTuple false 1234 ("s".toList)).1
        (SI.standardizeTuple false 1234 ("s".toList)).2 = (1234, "s".toList) ∧
      SI.normalizeTuple false (SI.standardizeTuple false (1/2) ("kg".toList)).1
        (SI.standardizeTuple false (1/2) ("kg".toList)).2 = (1/2, "kg".toList) :=
  ⟨(standardize_roundtrip_amended 1234 ("s".toList) (by decide) (by decide)
      (by decide) (by decide) (by decide) (by decide) (by decide)).1,
    (standardize_roundtrip_amended (1/2) ("kg".toList) (by decide) (by decide)
      (by decide) (by decide) (by decide) (by decide) (by decide)).1⟩

/-- C5: the zero Volt Quantity compares equal to the literal number 0, yet
adding the zero Volt Quantity and the zero Ampere Quantity raises the
Dimension-mismatch error. -/
theorem zero_quantity_eq_and_add_mismatch :
    PObject.make 0 ("V".toList) = Except.ok ⟨0, ⟨12, 875⟩, 6, 6⟩ ∧
      PObject.make 0 ("A".toList) = Except.ok ⟨0, ⟨7, 1⟩, 6, 6⟩ ∧
      PObject.eqNum ⟨0, ⟨12, 875⟩, 6, 6⟩ 0 = true ∧
      PObject.add ⟨0, ⟨12, 875⟩, 6, 6⟩ ⟨0, ⟨7, 1⟩, 6, 6⟩ =
        Except.error ("only objects with identical units can be added to each other") := by
  decide

/-- C8: fromString("2 t") yields (2000, kg) and standardize(0.5, kg) yields
(500, g); in general a bare g or t input unit is normalized to kg with the
number scaled by 1000 down or up respectively. -/
theorem mass_normalization_facts :
    SI.fromStringPair false 2 ("t".toList) = (2000, "kg".toList) ∧
      SI.standardizeTuple false (1/2) ("kg".toList) = (500, "g".toList) ∧
      (∀ x : ℚ, SI.normalizeTuple false x ("g".toList) = (x / 1000, "kg".toList)) ∧
      (∀ x : ℚ, SI.normalizeTuple false x ("t".toList) = (x * 1000, "kg".toList)) := by
  have h0 : SI.pfxPower ([] : UStr) = some 0 := by decide
  refine ⟨by decide, by decide, ?_, ?_⟩
  · intro x
    rw [SI.normalizeTuple, stripWS_eq_self _ (by decide)]
    simp [SI.normalizeCore, SI.noSplitUnit, h0]
  · intro x
    rw [SI.normalizeTuple, stripWS_eq_self _ (by decide)]
    simp [SI.normalizeCore, SI.noSplitUnit, h0]

/-- C9: the token Pa is split into the Peta prefix and the base unit a
without consulting the unit table, so fromString("5 Pa") yields
(5e15, "a") and building the Quantity then fails with the unknown-unit
error; in general any non-whitespace remainder after a leading P is
accepted by the prefix engine unvalidated. -/
theorem pa_split_unknown_unit :
    SI.fromStringPair false 5 ("Pa".toList) = (5000000000000000, "a".toList) ∧
      PObject.make 5 ("Pa".toList) =
        Except.error ("Unknown unit name specified: a") ∧
      ∀ (x : ℚ) (rest : UStr), rest ≠ [] →
        (∀ ch ∈ rest, ch.isWhitespace = false) →
        rest ≠ "g".toList → rest ≠ "t".toList → rest ≠ "Ohm".toList →
        SI.normalizeTuple false x ('P' :: rest) = (x * (10:ℚ) ^ (15:ℤ), rest) := by
  refine ⟨by decide, by decide, ?_⟩
  intro x rest hne hws hg ht hOhm
  have hws2 : ∀ ch ∈ ('P' :: rest), ch.isWhitespace = false := by
    intro ch hch
    rcases List.mem_cons.mp hch with rfl | hmem
    · decide
    · exact hws ch hmem
  have h2kg : ('P' :: rest) ≠ "kg".toList := by
    intro hEq
    have hh : 'P' = 'k' := by simpa using congrArg List.head? hEq
    exact absurd hh (by decide)
  have h2cal : ('P' :: rest) ≠ "cal".toList := by
    intro hEq
    have hh : 'P' = 'c' := by simpa using congrArg List.head? hEq
    exact absurd hh (by decide)
  have h2mol : ('P' :: rest) ≠ "mol".toList := by
    intro hEq
    have hh : 'P' = 'm' := by simpa using congrArg List.head? hEq
    exact absurd hh (by decide)
  have h2cd : ('P' :: rest) ≠ "cd".toList := by
    intro hEq
    have hh : 'P' = 'c' := by simpa using congrArg List.head? hEq
    exact absurd hh (by decide)
  rw [SI.normalizeTuple, stripWS_eq_self _ hws2]
  exact normalizeCore_cons x 'P' rest 15 (by decide) hne h2kg h2cal h2mol h2cd hg ht hOhm

/-- C9 witness: the general prefix-splitting clause instantiated at the
remainder a, reproducing the concrete 5e15 result. -/
theorem pa_split_unknown_unit_witness :
    SI.normalizeTuple false 5 ('P' :: "a".toList) =
        (5 * (10:ℚ) ^ (15:ℤ), "a".toList) ∧
      5 * (10:ℚ) ^ (15:ℤ) = 5000000000000000 :=
  ⟨pa_split_unknown_unit.2.2 5 ("a".toList) (by decide) (by decide)
      (by decide) (by decide) (by decide),
    by decide⟩

/-- C10: for two Quantities of identical unit with the right operand's
digits larger, non-in-place addition and non-in-place multiplication both
mutate the left operand: the digits entry of its kwargs bag becomes
max(a.digits, b.digits) = b.digits, while its magnitude, unit and digits
attribute are unchanged. -/
theorem add_mul_mutate_left_kwargs (a b : PObject) (hu : a.unit = b.unit)
    (hdig : a.digits < b.digits) (hn : a.unit.numerator ≠ 0) :
    (PObject.add a b).map Prod.snd = Except.ok ⟨a.value, a.unit, a.digits, b.digits⟩ ∧
      (PObject.mul a b).map Prod.snd = Except.ok ⟨a.value, a.unit, a.digits, b.digits⟩ := by
  have hmax : max a.digits b.digits = b.digits := Nat.max_eq_right (le_of_lt hdig)
  constructor
  · simp only [PObject.add]
    rw [if_neg (not_ne_iff.mpr hu.symm)]
    rcases hbool : a.unit.isUnitless with _ | _
    · simp [hbool, Except.map, hmax]
    · simp [hbool, Except.map, hmax]
  · obtain ⟨u, hmu⟩ : ∃ u, SI.Unit.mul a.unit b.unit = Except.ok u := by
      rw [← hu]
      simp only [SI.Unit.mul, SI.Unit.ofTuple]
      rw [if_neg ?hgcd]
      · exact ⟨_, rfl⟩
      case hgcd =>
        intro h
        rcases Nat.gcd_eq_zero_iff.mp h with ⟨h1, _⟩
        rcases Nat.mul_eq_zero.mp h1 with h2 | h2 <;> exact hn h2
    simp only [PObject.mul]
    rw [hmu]
    rcases hbool : u.isUnitless with _ | _
    · simp [hbool, Except.map, hmax]
    · simp [hbool, Except.map, hmax]

/-- C10 witness: two Volt Quantities with digits 3 and 7: both addition and
multiplication leave the left operand with kwargs digits 7 and everything
else unchanged. -/
theorem add_mul_mutate_left_kwargs_witness :
    (PObject.add ⟨5, ⟨12, 875⟩, 3, 3⟩ ⟨2, ⟨12, 875⟩, 7, 7⟩).map Prod.snd =
        Except.ok ⟨5, ⟨12, 875⟩, 3, 7⟩ ∧
      (PObject.mul ⟨5, ⟨12, 875⟩, 3, 3⟩ ⟨2, ⟨12, 875⟩, 7, 7⟩).map Prod.snd =
        Except.ok ⟨5, ⟨12, 875⟩, 3, 7⟩ :=
  add_mul_mutate_left_kwargs ⟨5, ⟨12, 875⟩, 3, 3⟩ ⟨2, ⟨12, 875⟩, 7, 7⟩ rfl
    (by decide) (by decide)

end Verification
